import Mathlib

/-!
Shallow embedding of the `wspool` WebSocket connection pool
(`conn.go` / `pool.go`), plus theorems settling the frozen claims.

Modelling choices, all driven by the Go source:

* Machine state is one `World` record: the heap of `WsConn` handles
  (Go pointers become indices into `World.handles`), the pool struct,
  the set of currently-open transport connections (so that leaks and
  closes are observable), a fresh-transport counter, a dial-attempt
  counter and the current time.
* The external transport collaborator (gorilla/websocket) is abstracted:
  a dial attempt consults the `Config.Dialer` oracle indexed by the
  dial-attempt counter; writes/reads on an open connection succeed.
  Calling a method through a nil `*websocket.Conn` (no nil guard in the
  Go source) is the `Outcome.panics` result, per Go nil-pointer
  dereference semantics.
* The Go `int32` field `activeConnections` is modelled as an `Int` on
  which every increment applies the two-sided int32 wrap `int32Wrap`
  (the source increments the field with no overflow guard, so wrapping
  is part of its semantics); the immutable config fields `MaxConn` and
  `MinConn` are plain `Int`, and `time.Time`/`time.Duration` are `Int`.
* The tick body of the health-check goroutine and the caller-driven
  operations become labelled steps (`Op`) of a state machine; `run`
  folds a list of steps, standing for an arbitrary interleaving chosen
  by the scheduler.
-/

namespace Wspool

/-- Result of one Go method call: normal value, a returned `error`, or a
runtime panic (nil-pointer dereference). -/
inductive Outcome (α : Type) where
  | ok (val : α)
  | err (msg : String)
  | panics
deriving Repr, DecidableEq

/-- The `WsConn` struct of `conn.go`: `c` is the transport connection
(`none` models a nil `*websocket.Conn`), `p` the owning-pool
back-reference (`none` models a nil `*Pool`), plus the two timestamps.
The per-handle mutex is dropped: steps are already atomic here. -/
structure WsConn where
  c : Option Nat
  p : Option Unit
  createdAt : Int
  lastUsedAt : Int
deriving Repr, DecidableEq

/-- The `Config` struct of `pool.go`. `Dialer` is the dial oracle of the
abstracted transport: attempt `n` succeeds iff `Dialer n = true`;
`DialerSet = false` models a nil `*websocket.Dialer`. -/
structure Config where
  MaxConnLifetime : Int
  MaxConnIdleTime : Int
  MaxConn : Int
  MinConn : Int
  HealthCheckPeriod : Int
  Dialer : Nat → Bool
  DialerSet : Bool
  URL : String

/-- The mutable part of the `Pool` struct: `conns` holds heap indices of
the idle handles (last element = most recently appended),
`activeConnections` is the int32 counter (every increment site wraps
it through `int32Wrap`), and `closedOnce` records whether the
`sync.Once` body of `Pool.Close` has run. -/
structure PoolState where
  conns : List Nat
  activeConnections : Int
  closedOnce : Bool
deriving Repr, DecidableEq

/-- Whole-machine state: pool, handle heap, open transport connections,
fresh transport-id counter, dial-attempt counter, current time. -/
structure World where
  config : Config
  handles : List WsConn
  pool : PoolState
  openC : List Nat
  nextC : Nat
  dialCount : Nat
  now : Int

/-- The zero value of `WsConn` (all pointers nil). -/
def zeroConn : WsConn := { c := none, p := none, createdAt := 0, lastUsedAt := 0 }

/-- Dereference a handle pointer. Indices never dangle in runs produced
by the API, so the default is unreachable there. -/
def World.getHandle (w : World) (hid : Nat) : WsConn :=
  w.handles.getD hid zeroConn

/-- Write back a mutated handle. -/
def World.setHandle (w : World) (hid : Nat) (h : WsConn) : World :=
  { w with handles := w.handles.set hid h }

/-- Transport-level close: the connection id stops being open. -/
def World.closeTransport (w : World) (cid : Nat) : World :=
  { w with openC := w.openC.filter (fun x => x ≠ cid) }

/-- One dial attempt of the abstracted `Dialer.Dial`: on success a fresh
transport connection is opened. -/
def World.dial (w : World) : Option Nat × World :=
  if w.config.Dialer w.dialCount then
    (some w.nextC,
      { w with
          openC := w.openC ++ [w.nextC]
          nextC := w.nextC + 1
          dialCount := w.dialCount + 1 })
  else
    (none, { w with dialCount := w.dialCount + 1 })

/-- `WsConn.SendMessage` (and `Send` of the older `conn.go`): nil guard
returning `errors.New("connection is nil")`, else stamps `lastUsedAt`
and writes the frame (abstracted as succeeding). -/
def WsConn.SendMessage (w : World) (hid : Nat) : Outcome Unit × World :=
  let h := w.getHandle hid
  match h.c with
  | none => (.err "connection is nil", w)
  | some _ => (.ok (), w.setHandle hid { h with lastUsedAt := w.now })

/-- `WsConn.SendJSON`: identical structure to `SendMessage`. -/
def WsConn.SendJSON (w : World) (hid : Nat) : Outcome Unit × World :=
  let h := w.getHandle hid
  match h.c with
  | none => (.err "connection is nil", w)
  | some _ => (.ok (), w.setHandle hid { h with lastUsedAt := w.now })

/-- `WsConn.Send` of `conn.go`, same body as `SendMessage`. -/
def WsConn.Send (w : World) (hid : Nat) : Outcome Unit × World :=
  let h := w.getHandle hid
  match h.c with
  | none => (.err "connection is nil", w)
  | some _ => (.ok (), w.setHandle hid { h with lastUsedAt := w.now })

/-- `WsConn.ReadMessage`: the Go body has no nil guard and calls
`w.c.ReadMessage()` directly, so a closed handle dereferences a nil
pointer and panics; on an open connection the transport read is
abstracted as succeeding. `lastUsedAt` is not updated (reads do not
reset idle timing). -/
def WsConn.ReadMessage (w : World) (hid : Nat) : Outcome Unit × World :=
  let h := w.getHandle hid
  match h.c with
  | none => (.panics, w)
  | some _ => (.ok (), w)

/-- `WsConn.ReadJson`: same missing nil guard as `ReadMessage`. -/
def WsConn.ReadJson (w : World) (hid : Nat) : Outcome Unit × World :=
  let h := w.getHandle hid
  match h.c with
  | none => (.panics, w)
  | some _ => (.ok (), w)

/-- `WsConn.Close`: nil guard returning an error, else closes the
transport and nulls `w.c`. -/
def WsConn.Close (w : World) (hid : Nat) : Outcome Unit × World :=
  let h := w.getHandle hid
  match h.c with
  | none => (.err "connection is nil", w)
  | some cid => (.ok (), (w.closeTransport cid).setHandle hid { h with c := none })

/-- Two-sided wrap of Go `int32` arithmetic: the result lives in
[-2^31, 2^31). The source increments the `int32` field
`activeConnections` without any overflow guard, so the wrap is part of
the semantics of both increment sites. -/
def int32Wrap (n : Int) : Int := (n + 2147483648) % 4294967296 - 2147483648

/-- `Pool.newConnection`: dial; on success increment
`activeConnections` and allocate a fresh `WsConn` whose `p` field is
left at its zero value (the Go literal never sets it). -/
def Pool.newConnection (w : World) : Option Nat × World :=
  let res := w.dial
  match res.1 with
  | none => (none, res.2)
  | some cid =>
    let w2 := { res.2 with
      pool := { res.2.pool with
        activeConnections := int32Wrap (res.2.pool.activeConnections + 1) } }
    (some w2.handles.length,
      { w2 with handles :=
          w2.handles ++ [{ c := some cid, p := none, createdAt := w2.now, lastUsedAt := w2.now }] })

/-- First loop of `Pool.maintainPoolSize`: top the idle list up toward
`MinConn`, breaking on a dial error. Fuel bounds the Go `for` loop; it
is always called with enough fuel for the guard to settle the exit. -/
def Pool.refill : Nat → World → World
  | 0, w => w
  | Nat.succ n, w =>
    if (w.pool.conns.length : Int) < w.config.MinConn then
      let res := Pool.newConnection w
      match res.1 with
      | none => res.2
      | some hid =>
        Pool.refill n { res.2 with pool := { res.2.pool with conns := res.2.pool.conns ++ [hid] } }
    else w

/-- Second loop of `Pool.maintainPoolSize`: pop and close idle handles
while the idle list exceeds `MaxConn`. -/
def Pool.trim : Nat → World → World
  | 0, w => w
  | Nat.succ n, w =>
    if (w.pool.conns.length : Int) > w.config.MaxConn then
      match w.pool.conns.getLast? with
      | none => w
      | some hid =>
        Pool.trim n
          (WsConn.Close { w with pool := { w.pool with conns := w.pool.conns.dropLast } } hid).2
    else w

/-- `Pool.maintainPoolSize`: refill loop then trim loop. -/
def Pool.maintainPoolSize (w : World) : World :=
  let w1 := Pool.refill (w.config.MinConn - (w.pool.conns.length : Int)).toNat w
  Pool.trim w1.pool.conns.length w1

/-- `Pool.Acquire`: pop the most recently appended idle handle if any;
otherwise dial when `activeConnections < MaxConn` — note the second
increment of `activeConnections` on top of the one already done inside
`newConnection` — otherwise return the no-available-connections
error (`none`). -/
def Pool.Acquire (w : World) : Option Nat × World :=
  match w.pool.conns.getLast? with
  | some hid => (some hid, { w with pool := { w.pool with conns := w.pool.conns.dropLast } })
  | none =>
    if w.pool.activeConnections < w.config.MaxConn then
      let res := Pool.newConnection w
      match res.1 with
      | none => (none, res.2)
      | some hid =>
        (some hid,
          { res.2 with pool :=
              { res.2.pool with
                activeConnections := int32Wrap (res.2.pool.activeConnections + 1) } })
    else (none, w)

/-- `Pool.release`: append the handle to the idle list when its length
is below `MaxConn`, else close the handle; then `maintainPoolSize`. -/
def Pool.release (w : World) (hid : Nat) : World :=
  let w1 :=
    if (w.pool.conns.length : Int) < w.config.MaxConn then
      { w with pool := { w.pool with conns := w.pool.conns ++ [hid] } }
    else (WsConn.Close w hid).2
  Pool.maintainPoolSize w1

/-- `WsConn.Release`: no-op when `w.c` or `w.p` is nil, else hand the
handle to `Pool.release` and null the local transport reference. -/
def WsConn.Release (w : World) (hid : Nat) : World :=
  let h := w.getHandle hid
  if h.c.isNone || h.p.isNone then w
  else
    let w1 := Pool.release w hid
    w1.setHandle hid { w1.getHandle hid with c := none }

/-- Close every handle of a list (the `for _, conn := range p.conns`
loop of `Pool.Close`). -/
def World.closeAll (w : World) (l : List Nat) : World :=
  l.foldl (fun acc hid => (WsConn.Close acc hid).2) w

/-- `Pool.Close`: `sync.Once` guard, then close all idle handles and
nil the idle list. -/
def Pool.Close (w : World) : World :=
  if w.pool.closedOnce then w
  else
    let w1 := w.closeAll w.pool.conns
    { w1 with pool := { w1.pool with conns := [], closedOnce := true } }

/-- `Pool.isIdleOrExpired`: two independent checks, each enabled only
when its threshold is positive. -/
def Pool.isIdleOrExpired (cfg : Config) (h : WsConn) (now : Int) : Bool :=
  if 0 < cfg.MaxConnLifetime ∧ cfg.MaxConnLifetime < now - h.createdAt then true
  else if 0 < cfg.MaxConnIdleTime ∧ cfg.MaxConnIdleTime < now - h.lastUsedAt then true
  else false

/-- Body of the `for _, conn := range p.conns` loop of one health-check
tick: close expired handles, accumulate the retained ones in order. -/
def Pool.sweepLoop (now : Int) : World → List Nat → List Nat → World × List Nat
  | w, [], acc => (w, acc)
  | w, hid :: rest, acc =>
    if Pool.isIdleOrExpired w.config (w.getHandle hid) now then
      Pool.sweepLoop now (WsConn.Close w hid).2 rest acc
    else
      Pool.sweepLoop now w rest (acc ++ [hid])

/-- One tick of `startHealthCheck`: sweep the idle list at the current
time, install the retained handles as the new idle list, then
`maintainPoolSize`. -/
def Pool.sweepTick (w : World) : World :=
  let res := Pool.sweepLoop w.now w w.pool.conns []
  Pool.maintainPoolSize { res.1 with pool := { res.1.pool with conns := res.2 } }

/-- The initial machine state `New` builds its pool in. -/
def World.base (cfg : Config) : World :=
  { config := cfg
    handles := []
    pool := { conns := [], activeConnections := 0, closedOnce := false }
    openC := []
    nextC := 0
    dialCount := 0
    now := 0 }

/-- The `for i := int32(0); i < config.MinConn; i++` pre-warm loop of
`New`: dial and append, aborting on the first dial error. -/
def Pool.prewarm : Nat → World → Bool × World
  | 0, w => (true, w)
  | Nat.succ n, w =>
    let res := Pool.newConnection w
    match res.1 with
    | none => (false, res.2)
    | some hid =>
      Pool.prewarm n { res.2 with pool := { res.2.pool with conns := res.2.pool.conns ++ [hid] } }

/-- `New`: config validation, then the pre-warm loop. `(some (), w)`
models a successfully returned pool, `(none, w)` the `nil, err`
return; either way `w` records the machine state (in particular which
transport connections are still open) at the moment `New` returns. -/
def New (cfg : Config) : Option Unit × World :=
  if !cfg.DialerSet || cfg.URL == "" then (none, World.base cfg)
  else
    let res := Pool.prewarm cfg.MinConn.toNat (World.base cfg)
    if res.1 then (some (), res.2) else (none, res.2)

/-- Labels for the operations that can hit a live pool: caller-driven
`Acquire` / `WsConn.Release`, the internal `Pool.release` and
`maintainPoolSize`, one health-check tick, `Pool.Close`, and the
passage of time. -/
inductive Op where
  | acquire
  | release (hid : Nat)
  | poolRelease (hid : Nat)
  | sweep
  | close
  | maintain
  | advance (k : Nat)
deriving Repr, DecidableEq

/-- Operations reachable from outside the code of the pool itself:
`Pool.release` is unexported and only ever invoked through
`WsConn.Release`. -/
def Op.callerFacing : Op → Bool
  | Op.poolRelease _ => false
  | _ => true

/-- Apply one operation. -/
def step (w : World) : Op → World
  | Op.acquire => (Pool.Acquire w).2
  | Op.release hid => WsConn.Release w hid
  | Op.poolRelease hid => Pool.release w hid
  | Op.sweep => Pool.sweepTick w
  | Op.close => Pool.Close w
  | Op.maintain => Pool.maintainPoolSize w
  | Op.advance k => { w with now := w.now + k }

/-- Apply a sequence of operations. -/
def run (w : World) (ops : List Op) : World := ops.foldl step w

/-! ### Concrete fixtures used to evaluate the code on specific inputs -/

/-- A config whose dialer always succeeds and whose lifetime/idle
thresholds are unset. -/
def cfgAll (minC maxC : Int) : Config :=
  { MaxConnLifetime := 0, MaxConnIdleTime := 0, MaxConn := maxC, MinConn := minC,
    HealthCheckPeriod := 1, Dialer := fun _ => true, DialerSet := true, URL := "ws://x" }

/-- Pool of `{MinConn 1, MaxConn 2}` right after `New`. -/
def wC1 : World := (New (cfgAll 1 2)).2

/-- Pool of `{MinConn 2, MaxConn 2}` after `Acquire`, `Acquire`, one
health-check tick. -/
def wC2 : World := run (New (cfgAll 2 2)).2 [Op.acquire, Op.acquire, Op.sweep]

/-- Config `{MinConn 2, MaxConn 2}` whose dialer succeeds on the first
attempt only. -/
def cfgC3 : Config :=
  { MaxConnLifetime := 0, MaxConnIdleTime := 0, MaxConn := 2, MinConn := 2,
    HealthCheckPeriod := 1, Dialer := fun n => n == 0, DialerSet := true, URL := "ws://x" }

/-- Pool of `{MinConn 0, MaxConn 1}` right after `New` (idle list
empty, counter zero). -/
def wC4 : World := (New (cfgAll 0 1)).2

/-- Pool of `{MinConn 1, MaxConn 1}` after `Acquire` (handle 0 held by
the caller) and one health-check tick (which refilled the idle list
with handle 1): the idle list holds `MaxConn` handles while handle 0 is
still out. -/
def wC5 : World := run (New (cfgAll 1 1)).2 [Op.acquire, Op.sweep]

/-- Pool of `{MinConn 1, MaxConn 2}` after `Acquire` of handle 0. -/
def wC6a : World := (Pool.Acquire (New (cfgAll 1 2)).2).2

/-- Same, after `Close` on the acquired handle 0. -/
def wC6 : World := (WsConn.Close wC6a 0).2

/-- Pool of `{MinConn 0, MaxConn 0}` right after `New`: the counter
already equals `MaxConn`. -/
def wC7x : World := (New (cfgAll 0 0)).2

/-- A state at the int32 boundary: counter 2147483647 (the int32
maximum), empty idle list, `{MinConn 1, MaxConn 1}`, always-successful
dialer. The refill path reaches such a counter value after 2^31 - 1
successful dials, one per sweep-refill cycle, since nothing ever
decrements it. -/
def wWrap : World :=
  { config := cfgAll 1 1
    handles := []
    pool := { conns := [], activeConnections := 2147483647, closedOnce := false }
    openC := []
    nextC := 0
    dialCount := 0
    now := 0 }

/-- Handle fixture: created at time 0, last used at time 2. -/
def hC9 : WsConn := { c := some 0, p := none, createdAt := 0, lastUsedAt := 2 }

/-- Config fixture with nonzero lifetime and idle thresholds. -/
def cfgC9 : Config :=
  { MaxConnLifetime := 5, MaxConnIdleTime := 3, MaxConn := 2, MinConn := 1,
    HealthCheckPeriod := 1, Dialer := fun _ => true, DialerSet := true, URL := "ws://x" }

/-- Safety of one caller-held connection against the pool: its transport
`cid` is open, every transport the pool can still dial is fresher, the
caller-held handle `hid0` still points at `cid`, the idle list of the
pool neither contains `hid0` nor any other handle aliasing `cid`, and
no handle anywhere carries an owning-pool reference. -/
def ConnSafe (hid0 cid : Nat) (w : World) : Prop :=
  cid ∈ w.openC ∧ cid < w.nextC ∧
  (w.getHandle hid0).c = some cid ∧
  hid0 ∉ w.pool.conns ∧
  (∀ hid, hid ≠ hid0 → (w.getHandle hid).c ≠ some cid) ∧
  (∀ hid, (w.getHandle hid).p = none)

/-- Every transport id recorded in some handle was produced by an
earlier dial: an invariant of every state the API can reach. -/
def CidsFresh (v : World) : Prop :=
  ∀ (hid k : Nat), (v.getHandle hid).c = some k → k < v.nextC

/-! ### Claim theorems -/

/-- C1: the claim says that after `Acquire` hands out a handle and that
`Release` of that handle is called, the next `Acquire` returns the same
handle (LIFO reuse). The code violates this: `newConnection` (and the
pre-warm loop) never assign the owning-pool field `p`, so the
`w.p == nil` guard makes `WsConn.Release` a no-op on every handle the
pool ever produces. Concretely, on a `{MinConn 1, MaxConn 2}` pool the
first `Acquire` returns handle 0; after its `Release` the idle list is
still empty, the handle still holds its transport (so it was not
handed back, merely leaked to the caller), and the next `Acquire`
dials a brand-new handle 1 instead of returning handle 0. -/
theorem C1_release_is_noop_next_acquire_differs :
    (Pool.Acquire wC1).1 = some 0 ∧
    (WsConn.Release (Pool.Acquire wC1).2 0).pool.conns = [] ∧
    ((WsConn.Release (Pool.Acquire wC1).2 0).getHandle 0).c = some 0 ∧
    ((WsConn.Release (Pool.Acquire wC1).2 0).getHandle 0).p = none ∧
    (Pool.Acquire (WsConn.Release (Pool.Acquire wC1).2 0)).1 = some 1 := by
  decide

/-- C2: the claim says open connections (idle plus acquired, here the
length of `openC`) never exceed `MaxConn` in any reachable state. The
code violates this: with `{MinConn 2, MaxConn 2}`, acquiring both
pre-warmed handles and letting one health-check tick run makes
`maintainPoolSize` refill the idle list to `MinConn` while both
acquired connections are still open — four simultaneously open
transport connections against `MaxConn = 2`. -/
theorem C2_open_connections_exceed_maxconn :
    (New (cfgAll 2 2)).1 = some () ∧
    (cfgAll 2 2).MaxConn = 2 ∧
    wC2.openC = [0, 1, 2, 3] ∧
    wC2.pool.conns = [2, 3] ∧
    (wC2.getHandle 0).c = some 0 ∧
    (wC2.getHandle 1).c = some 1 := by
  decide

/-- C3: the claim says a dial failure during the pre-warm loop of `New`
closes every connection opened earlier before `New` returns. The code
violates this: `New` returns `nil, err` without touching the already
opened connections. With `MinConn = 2` and a dialer that succeeds only
on attempt 0, `New` fails and transport connection 0 is still open
(leaked). -/
theorem C3_new_leaks_earlier_connections_on_dial_failure :
    (New cfgC3).1 = none ∧
    (New cfgC3).2.openC = [0] := by
  decide

/-- C4: the claim says the dial path of `Acquire` increases
`activeCount` by exactly one. The code violates this: `newConnection`
already increments `activeConnections` and `Acquire` increments it a
second time, so on a `{MinConn 0, MaxConn 1}` pool a single successful
`Acquire` takes the counter from 0 to 2 (after which the pool is
permanently exhausted even though only one connection exists). -/
theorem C4_acquire_increments_counter_twice :
    wC4.pool.conns = [] ∧
    wC4.pool.activeConnections = 0 ∧
    (Pool.Acquire wC4).1 = some 0 ∧
    (Pool.Acquire wC4).2.pool.activeConnections = 2 := by
  decide

/-- C5: the claim says releasing a handle while the idle list already
holds `MaxConn` handles closes the handle and decreases `activeCount`
by one. The closing half is what the code does, but no code path ever
decrements `activeConnections`: in the `wC5` state (idle list `[1]` of
length `MaxConn = 1`, handle 0 held by the caller, counter at 2),
`Pool.release` of handle 0 closes it — transport 0 leaves the open set,
the `c` field of the handle is nulled, the idle list is unchanged — while the
counter stays at 2 instead of dropping to 1. -/
theorem C5_release_at_capacity_closes_but_never_decrements :
    (wC5.pool.conns.length : Int) = (cfgAll 1 1).MaxConn ∧
    wC5.pool.activeConnections = 2 ∧
    (Pool.release wC5 0).pool.conns = [1] ∧
    ((Pool.release wC5 0).getHandle 0).c = none ∧
    (Pool.release wC5 0).openC = [1] ∧
    (Pool.release wC5 0).pool.activeConnections = 2 := by
  decide

/-- C6: the claim says every operation on a handle fails by returning
an error once `Close` has succeeded on it. The senders and `Close`
itself do return errors, but `ReadMessage` and `ReadJson` have no nil
guard: they dereference the nil transport pointer and panic instead of
returning an error. -/
theorem C6_reads_panic_on_closed_handle :
    (WsConn.Close wC6a 0).1 = Outcome.ok () ∧
    (WsConn.ReadMessage wC6 0).1 = Outcome.panics ∧
    (WsConn.ReadJson wC6 0).1 = Outcome.panics ∧
    (WsConn.SendMessage wC6 0).1 = Outcome.err "connection is nil" ∧
    (WsConn.SendJSON wC6 0).1 = Outcome.err "connection is nil" ∧
    (WsConn.Close wC6 0).1 = Outcome.err "connection is nil" := by
  decide


theorem getHandle_set (w : World) (hid' hid : Nat) (h : WsConn) :
    (w.setHandle hid' h).getHandle hid =
      if hid = hid' ∧ hid < w.handles.length then h else w.getHandle hid := by
  unfold World.getHandle World.setHandle
  simp only [List.getD_eq_getD_get?, List.get?_eq_getElem?]
  rcases Nat.lt_or_ge hid w.handles.length with hlt | hge
  · by_cases he : hid = hid'
    · subst he
      rw [List.getElem?_set_self' ]
      simp [hlt, List.getElem?_eq_getElem hlt]
    · rw [List.getElem?_set_ne (by omega)]
      simp [he]
  · rw [List.getElem?_eq_none (by simpa using hge), List.getElem?_eq_none hge]
    have hcond : ¬(hid = hid' ∧ hid < w.handles.length) := by omega
    simp [hcond]


theorem newConnection_success (w : World) (hd : w.config.Dialer w.dialCount = true) :
    Pool.newConnection w =
      (some w.handles.length,
        { w with
            openC := w.openC ++ [w.nextC]
            nextC := w.nextC + 1
            dialCount := w.dialCount + 1
            pool := { w.pool with
              activeConnections := int32Wrap (w.pool.activeConnections + 1) }
            handles := w.handles ++
              [{ c := some w.nextC, p := none, createdAt := w.now, lastUsedAt := w.now }] }) := by
  unfold Pool.newConnection World.dial
  rw [if_pos hd]

theorem newConnection_fail (w : World) (hd : w.config.Dialer w.dialCount = false) :
    Pool.newConnection w = (none, { w with dialCount := w.dialCount + 1 }) := by
  unfold Pool.newConnection World.dial
  rw [if_neg (by simp [hd])]

theorem int32Wrap_eq_self (n : Int) (h1 : -2147483648 ≤ n) (h2 : n ≤ 2147483647) :
    int32Wrap n = n := by
  unfold int32Wrap
  rw [Int.emod_eq_of_lt (by omega) (by omega)]
  omega

theorem newConnection2_active_of_none (w : World)
    (hres : (Pool.newConnection w).1 = none) :
    (Pool.newConnection w).2.pool.activeConnections = w.pool.activeConnections := by
  by_cases hd : w.config.Dialer w.dialCount
  · rw [newConnection_success w hd] at hres
    exact Option.noConfusion hres
  · rw [newConnection_fail w (by simpa using hd)]

theorem newConnection2_active_of_some (w : World) (hid : Nat)
    (hres : (Pool.newConnection w).1 = some hid) :
    (Pool.newConnection w).2.pool.activeConnections
      = int32Wrap (w.pool.activeConnections + 1) := by
  by_cases hd : w.config.Dialer w.dialCount
  · rw [newConnection_success w hd]
  · rw [newConnection_fail w (by simpa using hd)] at hres
    exact Option.noConfusion hres


theorem close2_config (w : World) (hid : Nat) : (WsConn.Close w hid).2.config = w.config := by
  unfold WsConn.Close
  cases hc : (w.getHandle hid).c <;> simp [hc, World.closeTransport, World.setHandle]

theorem close2_pool (w : World) (hid : Nat) : (WsConn.Close w hid).2.pool = w.pool := by
  unfold WsConn.Close
  cases hc : (w.getHandle hid).c <;> simp [hc, World.closeTransport, World.setHandle]

theorem closeAll_config (l : List Nat) (w : World) : (w.closeAll l).config = w.config := by
  induction l generalizing w with
  | nil => rfl
  | cons hid rest ih =>
    show ((WsConn.Close w hid).2.closeAll rest).config = w.config
    rw [ih, close2_config]

theorem closeAll_pool (l : List Nat) (w : World) : (w.closeAll l).pool = w.pool := by
  induction l generalizing w with
  | nil => rfl
  | cons hid rest ih =>
    show ((WsConn.Close w hid).2.closeAll rest).pool = w.pool
    rw [ih, close2_pool]

theorem newConnection2_config (w : World) : (Pool.newConnection w).2.config = w.config := by
  by_cases hd : w.config.Dialer w.dialCount
  · rw [newConnection_success w hd]
  · rw [newConnection_fail w (by simpa using hd)]

theorem newConnection2_conns (w : World) :
    (Pool.newConnection w).2.pool.conns = w.pool.conns := by
  by_cases hd : w.config.Dialer w.dialCount
  · rw [newConnection_success w hd]
  · rw [newConnection_fail w (by simpa using hd)]

theorem refill_config (n : Nat) (w : World) : (Pool.refill n w).config = w.config := by
  induction n generalizing w with
  | zero => rfl
  | succ n ih =>
    unfold Pool.refill
    split
    · cases hres : (Pool.newConnection w).1
      · simp [hres, newConnection2_config]
      · simp [hres, ih, newConnection2_config]
    · rfl

theorem refill_active_bounds (n : Nat) :
    ∀ w : World, -2147483648 ≤ w.pool.activeConnections →
      w.pool.activeConnections + (n : Int) ≤ 2147483647 →
      w.pool.activeConnections ≤ (Pool.refill n w).pool.activeConnections ∧
      (Pool.refill n w).pool.activeConnections
        ≤ w.pool.activeConnections + (n : Int) := by
  induction n with
  | zero =>
    intro w h1 h2
    refine ⟨le_refl _, ?_⟩
    show w.pool.activeConnections ≤ w.pool.activeConnections + ((0 : Nat) : Int)
    simp
  | succ n ih =>
    intro w h1 h2
    unfold Pool.refill
    split
    · cases hres : (Pool.newConnection w).1 with
      | none =>
        simp only [hres]
        have hcnt := newConnection2_active_of_none w hres
        constructor
        · omega
        · omega
      | some hid =>
        simp only [hres]
        have hcnt : (Pool.newConnection w).2.pool.activeConnections
            = w.pool.activeConnections + 1 := by
          rw [newConnection2_active_of_some w hid hres]
          exact int32Wrap_eq_self _ (by omega) (by omega)
        have hrec := ih
          { (Pool.newConnection w).2 with pool :=
              { (Pool.newConnection w).2.pool with
                conns := (Pool.newConnection w).2.pool.conns ++ [hid] } }
          (by show -2147483648 ≤ (Pool.newConnection w).2.pool.activeConnections
              omega)
          (by show (Pool.newConnection w).2.pool.activeConnections + (n : Int)
                ≤ 2147483647
              omega)
        rcases hrec with ⟨hrl, hrr⟩
        constructor
        · refine le_trans ?_ hrl
          show w.pool.activeConnections ≤ (Pool.newConnection w).2.pool.activeConnections
          omega
        · refine le_trans hrr ?_
          show (Pool.newConnection w).2.pool.activeConnections + (n : Int)
              ≤ w.pool.activeConnections + ((n + 1 : Nat) : Int)
          push_cast
          omega
    · exact ⟨le_refl _, by omega⟩

theorem trim_config (n : Nat) (w : World) : (Pool.trim n w).config = w.config := by
  induction n generalizing w with
  | zero => rfl
  | succ n ih =>
    unfold Pool.trim
    split
    · cases hl : w.pool.conns.getLast?
      · simp [hl]
      · simp only [hl]
        rw [ih, close2_config]
    · rfl

theorem trim_active (n : Nat) (w : World) :
    (Pool.trim n w).pool.activeConnections = w.pool.activeConnections := by
  induction n generalizing w with
  | zero => rfl
  | succ n ih =>
    unfold Pool.trim
    split
    · cases hl : w.pool.conns.getLast?
      · simp [hl]
      · simp only [hl]
        rw [ih, close2_pool]
    · rfl

theorem maintain_config (w : World) : (Pool.maintainPoolSize w).config = w.config := by
  unfold Pool.maintainPoolSize
  rw [trim_config, refill_config]

theorem maintain_active_bounds (w : World)
    (h1 : -2147483648 ≤ w.pool.activeConnections)
    (h2 : w.pool.activeConnections + (w.config.MinConn.toNat : Int) ≤ 2147483647) :
    w.pool.activeConnections ≤ (Pool.maintainPoolSize w).pool.activeConnections ∧
    (Pool.maintainPoolSize w).pool.activeConnections
      ≤ w.pool.activeConnections + (w.config.MinConn.toNat : Int) := by
  unfold Pool.maintainPoolSize
  rw [trim_active]
  have hfle : ((w.config.MinConn - (w.pool.conns.length : Int)).toNat : Int)
      ≤ (w.config.MinConn.toNat : Int) := by
    have hnn : (0 : Int) ≤ (w.pool.conns.length : Int) := Int.natCast_nonneg _
    exact_mod_cast Int.toNat_le_toNat (by omega)
  obtain ⟨hl, hr⟩ := refill_active_bounds
    (w.config.MinConn - (w.pool.conns.length : Int)).toNat w h1 (by omega)
  exact ⟨hl, by omega⟩


theorem sweepLoop1_config (now : Int) (l acc : List Nat) (w : World) :
    (Pool.sweepLoop now w l acc).1.config = w.config := by
  induction l generalizing w acc with
  | nil => rfl
  | cons hid rest ih =>
    unfold Pool.sweepLoop
    split
    · rw [ih, close2_config]
    · rw [ih]

theorem sweepLoop1_pool (now : Int) (l acc : List Nat) (w : World) :
    (Pool.sweepLoop now w l acc).1.pool = w.pool := by
  induction l generalizing w acc with
  | nil => rfl
  | cons hid rest ih =>
    unfold Pool.sweepLoop
    split
    · rw [ih, close2_pool]
    · rw [ih]

theorem acquire2_config (w : World) : (Pool.Acquire w).2.config = w.config := by
  unfold Pool.Acquire
  cases hl : w.pool.conns.getLast?
  · simp only [hl]
    split
    · cases hres : (Pool.newConnection w).1 <;> simp [hres, newConnection2_config]
    · rfl
  · rfl

theorem acquire2_active_ge (w : World)
    (h1 : -2147483648 ≤ w.pool.activeConnections)
    (h2 : w.pool.activeConnections + 2 ≤ 2147483647) :
    w.pool.activeConnections ≤ (Pool.Acquire w).2.pool.activeConnections := by
  unfold Pool.Acquire
  cases hl : w.pool.conns.getLast?
  · simp only [hl]
    split
    · cases hres : (Pool.newConnection w).1 with
      | none =>
        simp only [hres]
        have hcnt := newConnection2_active_of_none w hres
        omega
      | some hid =>
        simp only [hres]
        have hcnt : (Pool.newConnection w).2.pool.activeConnections
            = w.pool.activeConnections + 1 := by
          rw [newConnection2_active_of_some w hid hres]
          exact int32Wrap_eq_self _ (by omega) (by omega)
        show w.pool.activeConnections
            ≤ int32Wrap ((Pool.newConnection w).2.pool.activeConnections + 1)
        rw [hcnt, int32Wrap_eq_self _ (by omega) (by omega)]
        omega
    · exact le_refl _
  · exact le_refl _

theorem release_config (w : World) (hid : Nat) : (Pool.release w hid).config = w.config := by
  unfold Pool.release
  split
  · rw [maintain_config]
  · rw [maintain_config, close2_config]

theorem release_active_ge (w : World) (hid : Nat)
    (h1 : -2147483648 ≤ w.pool.activeConnections)
    (h2 : w.pool.activeConnections + (w.config.MinConn.toNat : Int) ≤ 2147483647) :
    w.pool.activeConnections ≤ (Pool.release w hid).pool.activeConnections := by
  unfold Pool.release
  split
  · exact (maintain_active_bounds
      { w with pool := { w.pool with conns := w.pool.conns ++ [hid] } } h1 h2).1
  · have e1 := close2_pool w hid
    have e2 := close2_config w hid
    have h1x : -2147483648 ≤ (WsConn.Close w hid).2.pool.activeConnections := by
      rw [e1]; exact h1
    have h2x : (WsConn.Close w hid).2.pool.activeConnections
        + ((WsConn.Close w hid).2.config.MinConn.toNat : Int) ≤ 2147483647 := by
      rw [e1, e2]; exact h2
    have hb := (maintain_active_bounds _ h1x h2x).1
    exact le_trans (le_of_eq (congrArg PoolState.activeConnections e1).symm) hb

theorem wsRelease_config (w : World) (hid : Nat) : (WsConn.Release w hid).config = w.config := by
  unfold WsConn.Release
  dsimp only
  split
  · rfl
  · show (World.setHandle _ _ _).config = _
    unfold World.setHandle
    simp [release_config]

theorem wsRelease_active_ge (w : World) (hid : Nat)
    (h1 : -2147483648 ≤ w.pool.activeConnections)
    (h2 : w.pool.activeConnections + (w.config.MinConn.toNat : Int) ≤ 2147483647) :
    w.pool.activeConnections ≤ (WsConn.Release w hid).pool.activeConnections := by
  unfold WsConn.Release
  dsimp only
  split
  · exact le_refl _
  · show _ ≤ (World.setHandle _ _ _).pool.activeConnections
    unfold World.setHandle
    simpa using release_active_ge w hid h1 h2

theorem poolClose_config (w : World) : (Pool.Close w).config = w.config := by
  unfold Pool.Close
  split
  · rfl
  · simp [closeAll_config]

theorem poolClose_active (w : World) :
    (Pool.Close w).pool.activeConnections = w.pool.activeConnections := by
  unfold Pool.Close
  split
  · rfl
  · show (PoolState.mk _ _ _).activeConnections = _
    simp [closeAll_pool]

theorem sweepTick_config (w : World) : (Pool.sweepTick w).config = w.config := by
  unfold Pool.sweepTick
  rw [maintain_config]
  exact sweepLoop1_config _ _ _ _

theorem sweepTick_active_ge (w : World)
    (h1 : -2147483648 ≤ w.pool.activeConnections)
    (h2 : w.pool.activeConnections + (w.config.MinConn.toNat : Int) ≤ 2147483647) :
    w.pool.activeConnections ≤ (Pool.sweepTick w).pool.activeConnections := by
  unfold Pool.sweepTick
  have e1 := sweepLoop1_pool w.now w.pool.conns [] w
  have e2 := sweepLoop1_config w.now w.pool.conns [] w
  have h1x : -2147483648
      ≤ (Pool.sweepLoop w.now w w.pool.conns []).1.pool.activeConnections := by
    rw [e1]; exact h1
  have h2x : (Pool.sweepLoop w.now w w.pool.conns []).1.pool.activeConnections
      + ((Pool.sweepLoop w.now w w.pool.conns []).1.config.MinConn.toNat : Int)
      ≤ 2147483647 := by
    rw [e1, e2]; exact h2
  have hb := (maintain_active_bounds
    { (Pool.sweepLoop w.now w w.pool.conns []).1 with
      pool := { (Pool.sweepLoop w.now w w.pool.conns []).1.pool with
                conns := (Pool.sweepLoop w.now w w.pool.conns []).2 } } h1x h2x).1
  exact le_trans (le_of_eq (congrArg PoolState.activeConnections e1).symm) hb

theorem step_config (w : World) (op : Op) : (step w op).config = w.config := by
  cases op with
  | acquire => exact acquire2_config w
  | release hid => exact wsRelease_config w hid
  | poolRelease hid => exact release_config w hid
  | sweep => exact sweepTick_config w
  | close => exact poolClose_config w
  | maintain => exact maintain_config w
  | advance k => rfl

theorem step_active_ge (w : World) (op : Op)
    (h1 : -2147483648 ≤ w.pool.activeConnections)
    (h2 : w.pool.activeConnections + (w.config.MinConn.toNat + 2 : Int) ≤ 2147483647) :
    w.pool.activeConnections ≤ (step w op).pool.activeConnections := by
  have hnn : (0 : Int) ≤ (w.config.MinConn.toNat : Int) := Int.natCast_nonneg _
  cases op with
  | acquire => exact acquire2_active_ge w h1 (by omega)
  | release hid => exact wsRelease_active_ge w hid h1 (by omega)
  | poolRelease hid => exact release_active_ge w hid h1 (by omega)
  | sweep => exact sweepTick_active_ge w h1 (by omega)
  | close => exact le_of_eq (poolClose_active w).symm
  | maintain => exact (maintain_active_bounds w h1 (by omega)).1
  | advance k => exact le_refl _

theorem run_config (w : World) (ops : List Op) : (run w ops).config = w.config := by
  induction ops generalizing w with
  | nil => rfl
  | cons op rest ih =>
    show (run (step w op) rest).config = w.config
    rw [ih, step_config]

theorem run_cons (w : World) (op : Op) (ops : List Op) :
    run w (op :: ops) = run (step w op) ops := rfl

theorem run_active_ge (ops : List Op) :
    ∀ w : World,
      (∀ i, i < ops.length →
        -2147483648 ≤ (run w (ops.take i)).pool.activeConnections ∧
        (run w (ops.take i)).pool.activeConnections
            + ((run w (ops.take i)).config.MinConn.toNat + 2 : Int) ≤ 2147483647) →
      w.pool.activeConnections ≤ (run w ops).pool.activeConnections := by
  induction ops with
  | nil => intro w _; exact le_refl _
  | cons op rest ih =>
    intro w hb
    have h0 := hb 0 (by simp)
    rw [List.take_zero] at h0
    have hstep := step_active_ge w op h0.1 h0.2
    refine le_trans hstep (ih (step w op) ?_)
    intro i hi
    have hx := hb (i + 1) (by simp only [List.length_cons]; omega)
    rw [List.take_succ_cons, run_cons] at hx
    exact hx

theorem acquire_exhausted (w : World) (hconns : w.pool.conns = [])
    (hfull : w.config.MaxConn ≤ w.pool.activeConnections) :
    Pool.Acquire w = (none, w) := by
  unfold Pool.Acquire
  rw [hconns]
  simp only [List.getLast?_nil]
  rw [if_neg (not_lt.mpr hfull)]


theorem acquire_dial_path (w : World) (hconns : w.pool.conns = [])
    (hlt : w.pool.activeConnections < w.config.MaxConn)
    (hd : w.config.Dialer w.dialCount = true)
    (h1 : -2147483648 ≤ w.pool.activeConnections)
    (h2 : w.pool.activeConnections + 2 ≤ 2147483647) :
    (Pool.Acquire w).1 = some w.handles.length ∧
    (Pool.Acquire w).2.pool.activeConnections = w.pool.activeConnections + 2 := by
  unfold Pool.Acquire
  rw [hconns]
  simp only [List.getLast?_nil, if_pos hlt, newConnection_success w hd]
  constructor
  · trivial
  · show int32Wrap (int32Wrap (w.pool.activeConnections + 1) + 1) = _
    rw [int32Wrap_eq_self (w.pool.activeConnections + 1) (by omega) (by omega)]
    rw [int32Wrap_eq_self (w.pool.activeConnections + 1 + 1) (by omega) (by omega)]
    omega

/-- C7 counterexample: the claim asserts unconditional monotonicity and
permanent exhaustion, but `activeConnections` is a wrapping `int32`
incremented with no overflow guard. In the concrete state `wWrap`
(counter at the int32 maximum 2147483647, empty idle list,
`{MinConn 1, MaxConn 1}` — a counter value the refill path reaches
after 2^31 - 1 successful dials since nothing decrements it), the
counter is at least `MaxConn`, yet a single `maintainPoolSize` step
wraps it to -2147483648, strictly decreasing it; and after that step
plus one `Acquire` the idle list is empty while the next `Acquire`
succeeds instead of failing. -/
theorem C7_wrap_counterexample :
    wWrap.config.MaxConn ≤ wWrap.pool.activeConnections ∧
    (step wWrap Op.maintain).pool.activeConnections < wWrap.pool.activeConnections ∧
    (run wWrap [Op.maintain, Op.acquire]).pool.conns = [] ∧
    (Pool.Acquire (run wWrap [Op.maintain, Op.acquire])).1.isSome = true := by
  decide

/-- C7 (amended): no code path ever decrements `activeConnections`;
the counter only changes through its two increment sites, and those
wrap at the int32 boundary. Below that boundary the original claim
holds: in every state whose counter is at least -2^31 and leaves room
for the increments one step can perform (at most `MinConn.toNat + 2`),
the counter is non-decreasing under every operation; the dial path of
`Acquire` increases it by exactly two; and once it has reached
`MaxConn`, every later `Acquire` finding the idle list empty fails
with the no-available-connections error, provided every intermediate
state of the run stays below the overflow boundary. -/
theorem C7_counter_monotone_below_int32_overflow :
    (∀ (w : World) (op : Op),
        -2147483648 ≤ w.pool.activeConnections →
        w.pool.activeConnections + (w.config.MinConn.toNat + 2 : Int) ≤ 2147483647 →
        w.pool.activeConnections ≤ (step w op).pool.activeConnections) ∧
    (∀ w : World, w.pool.conns = [] →
        w.pool.activeConnections < w.config.MaxConn →
        w.config.Dialer w.dialCount = true →
        -2147483648 ≤ w.pool.activeConnections →
        w.pool.activeConnections + 2 ≤ 2147483647 →
        (Pool.Acquire w).2.pool.activeConnections = w.pool.activeConnections + 2) ∧
    (∀ (w : World) (ops : List Op), w.config.MaxConn ≤ w.pool.activeConnections →
        (run w ops).pool.conns = [] →
        (∀ i, i < ops.length →
          -2147483648 ≤ (run w (ops.take i)).pool.activeConnections ∧
          (run w (ops.take i)).pool.activeConnections
              + ((run w (ops.take i)).config.MinConn.toNat + 2 : Int) ≤ 2147483647) →
        Pool.Acquire (run w ops) = (none, run w ops)) := by
  refine ⟨step_active_ge, ?_, ?_⟩
  · intro w hc hlt hd h1 h2
    exact (acquire_dial_path w hc hlt hd h1 h2).2
  · intro w ops hfull hconns hpref
    apply acquire_exhausted _ hconns
    rw [run_config]
    exact le_trans hfull (run_active_ge ops w hpref)

theorem C7_counter_monotone_witness :
    wC4.pool.activeConnections ≤ (step wC4 Op.acquire).pool.activeConnections ∧
    (Pool.Acquire wC4).2.pool.activeConnections = wC4.pool.activeConnections + 2 ∧
    Pool.Acquire (run wC7x [Op.sweep]) = (none, run wC7x [Op.sweep]) :=
  ⟨C7_counter_monotone_below_int32_overflow.1 wC4 Op.acquire (by decide) (by decide),
   C7_counter_monotone_below_int32_overflow.2.1 wC4 (by decide) (by decide) (by decide)
     (by decide) (by decide),
   C7_counter_monotone_below_int32_overflow.2.2 wC7x [Op.sweep] (by decide) (by decide)
     (by decide)⟩


/-- C8: every send variant (`SendMessage`, `SendJSON`, and the `Send`
of the older conn.go) invoked on a closed handle (nil transport)
returns the connection-is-nil error and leaves the state untouched —
it neither panics nor silently succeeds — and `Close` indeed leaves
the handle with a nil transport. -/
theorem C8_send_on_closed_always_errors (w : World) (hid : Nat)
    (h : (w.getHandle hid).c = none) :
    WsConn.SendMessage w hid = (Outcome.err "connection is nil", w) ∧
    WsConn.SendJSON w hid = (Outcome.err "connection is nil", w) ∧
    WsConn.Send w hid = (Outcome.err "connection is nil", w) ∧
    ((WsConn.Close w hid).2.getHandle hid).c = none := by
  refine ⟨?_, ?_, ?_, ?_⟩ <;>
    simp [WsConn.SendMessage, WsConn.SendJSON, WsConn.Send, WsConn.Close, h]

theorem C8_send_on_closed_witness :
    WsConn.SendMessage wC6 0 = (Outcome.err "connection is nil", wC6) ∧
    WsConn.SendJSON wC6 0 = (Outcome.err "connection is nil", wC6) ∧
    WsConn.Send wC6 0 = (Outcome.err "connection is nil", wC6) ∧
    ((WsConn.Close wC6 0).2.getHandle 0).c = none :=
  C8_send_on_closed_always_errors wC6 0 (by decide)

theorem isIdleOrExpired_iff (cfg : Config) (h : WsConn) (now : Int)
    (h1 : 0 ≤ cfg.MaxConnLifetime) (h2 : 0 ≤ cfg.MaxConnIdleTime) :
    Pool.isIdleOrExpired cfg h now = true ↔
      ((cfg.MaxConnLifetime ≠ 0 ∧ cfg.MaxConnLifetime < now - h.createdAt) ∨
       (cfg.MaxConnIdleTime ≠ 0 ∧ cfg.MaxConnIdleTime < now - h.lastUsedAt)) := by
  unfold Pool.isIdleOrExpired
  split
  · rename_i hA
    simp only [true_iff]
    exact Or.inl ⟨by omega, hA.2⟩
  · rename_i hA
    split
    · rename_i hB
      simp only [true_iff]
      exact Or.inr ⟨by omega, hB.2⟩
    · rename_i hB
      simp only [Bool.false_eq_true, false_iff]
      push_neg at hA hB
      rintro (⟨hne, hlt⟩ | ⟨hne, hlt⟩)
      · have h3 := hA (by omega)
        omega
      · have h3 := hB (by omega)
        omega

theorem close2_getHandle_times (w : World) (hid hid2 : Nat) :
    ((WsConn.Close w hid).2.getHandle hid2).createdAt = (w.getHandle hid2).createdAt ∧
    ((WsConn.Close w hid).2.getHandle hid2).lastUsedAt = (w.getHandle hid2).lastUsedAt := by
  unfold WsConn.Close
  dsimp only
  cases hc : (w.getHandle hid).c with
  | none => exact ⟨rfl, rfl⟩
  | some cid =>
    dsimp only
    rw [getHandle_set]
    split
    · rename_i hcond
      rw [hcond.1]
      exact ⟨rfl, rfl⟩
    · exact ⟨rfl, rfl⟩

theorem close2_isIdleOrExpired (w : World) (hid hid2 : Nat) (now : Int) :
    Pool.isIdleOrExpired (WsConn.Close w hid).2.config
        ((WsConn.Close w hid).2.getHandle hid2) now
      = Pool.isIdleOrExpired w.config (w.getHandle hid2) now := by
  have ht := close2_getHandle_times w hid hid2
  rw [close2_config]
  unfold Pool.isIdleOrExpired
  rw [ht.1, ht.2]

theorem sweepLoop2_filter (now : Int) (l acc : List Nat) (w : World) :
    (Pool.sweepLoop now w l acc).2 =
      acc ++ l.filter (fun hid => !(Pool.isIdleOrExpired w.config (w.getHandle hid) now)) := by
  induction l generalizing w acc with
  | nil => simp [Pool.sweepLoop]
  | cons hid rest ih =>
    unfold Pool.sweepLoop
    by_cases hp : Pool.isIdleOrExpired w.config (w.getHandle hid) now
    · rw [if_pos hp, ih]
      have hcong : rest.filter
            (fun hid2 => !(Pool.isIdleOrExpired (WsConn.Close w hid).2.config
              ((WsConn.Close w hid).2.getHandle hid2) now))
          = rest.filter (fun hid2 => !(Pool.isIdleOrExpired w.config (w.getHandle hid2) now)) :=
        List.filter_congr (fun x _ => by rw [close2_isIdleOrExpired])
      rw [hcong, List.filter_cons]
      simp [hp]
    · rw [if_neg hp, ih, List.filter_cons]
      simp [hp]


/-- C9: the sweep classifies an idle handle for closing exactly when a
nonzero (positive) `MaxConnLifetime` is exceeded by the time since
`createdAt`, or a nonzero `MaxConnIdleTime` is exceeded by the time
since `lastUsedAt`; a zero threshold disables the corresponding check
entirely; and the sweep loop retains exactly the non-expired handles,
in order, as the new idle list. -/
theorem C9_sweep_classification :
    (∀ (cfg : Config) (h : WsConn) (now : Int),
        0 ≤ cfg.MaxConnLifetime → 0 ≤ cfg.MaxConnIdleTime →
        (Pool.isIdleOrExpired cfg h now = true ↔
          ((cfg.MaxConnLifetime ≠ 0 ∧ cfg.MaxConnLifetime < now - h.createdAt) ∨
           (cfg.MaxConnIdleTime ≠ 0 ∧ cfg.MaxConnIdleTime < now - h.lastUsedAt)))) ∧
    (∀ (cfg : Config) (h : WsConn) (now : Int),
        cfg.MaxConnLifetime = 0 → cfg.MaxConnIdleTime = 0 →
        Pool.isIdleOrExpired cfg h now = false) ∧
    (∀ w : World,
        (Pool.sweepLoop w.now w w.pool.conns []).2 =
          w.pool.conns.filter
            (fun hid => !(Pool.isIdleOrExpired w.config (w.getHandle hid) w.now))) := by
  refine ⟨fun cfg h now h1 h2 => isIdleOrExpired_iff cfg h now h1 h2, ?_, ?_⟩
  · intro cfg h now hz1 hz2
    unfold Pool.isIdleOrExpired
    rw [hz1, hz2]
    simp
  · intro w
    simpa using sweepLoop2_filter w.now w.pool.conns [] w

theorem C9_sweep_classification_witness :
    (Pool.isIdleOrExpired cfgC9 hC9 10 = true ↔
      ((cfgC9.MaxConnLifetime ≠ 0 ∧ cfgC9.MaxConnLifetime < 10 - hC9.createdAt) ∨
       (cfgC9.MaxConnIdleTime ≠ 0 ∧ cfgC9.MaxConnIdleTime < 10 - hC9.lastUsedAt))) ∧
    Pool.isIdleOrExpired (cfgAll 1 1) hC9 10 = false ∧
    (Pool.sweepLoop wC1.now wC1 wC1.pool.conns []).2 =
      wC1.pool.conns.filter
        (fun hid => !(Pool.isIdleOrExpired wC1.config (wC1.getHandle hid) wC1.now)) :=
  ⟨C9_sweep_classification.1 cfgC9 hC9 10 (by decide) (by decide),
   C9_sweep_classification.2.1 (cfgAll 1 1) hC9 10 (by decide) (by decide),
   C9_sweep_classification.2.2 wC1⟩


theorem close2_nextC (w : World) (hid : Nat) : (WsConn.Close w hid).2.nextC = w.nextC := by
  unfold WsConn.Close
  dsimp only
  cases hc : (w.getHandle hid).c <;> rfl

theorem close2_getHandle_ne (w : World) (hid hid2 : Nat) (hne : hid2 ≠ hid) :
    (WsConn.Close w hid).2.getHandle hid2 = w.getHandle hid2 := by
  unfold WsConn.Close
  dsimp only
  cases hc : (w.getHandle hid).c with
  | none => rfl
  | some cid =>
    dsimp only
    rw [getHandle_set]
    rw [if_neg (by intro hcond; exact hne hcond.1)]
    rfl

theorem close2_getHandle_c_cases (w : World) (hid hid2 : Nat) :
    ((WsConn.Close w hid).2.getHandle hid2).c = (w.getHandle hid2).c ∨
    ((WsConn.Close w hid).2.getHandle hid2).c = none := by
  unfold WsConn.Close
  dsimp only
  cases hc : (w.getHandle hid).c with
  | none => exact Or.inl rfl
  | some cid =>
    dsimp only
    rw [getHandle_set]
    split
    · exact Or.inr rfl
    · exact Or.inl rfl

theorem close2_getHandle_p (w : World) (hid hid2 : Nat) :
    ((WsConn.Close w hid).2.getHandle hid2).p = (w.getHandle hid2).p := by
  unfold WsConn.Close
  dsimp only
  cases hc : (w.getHandle hid).c with
  | none => rfl
  | some cid =>
    dsimp only
    rw [getHandle_set]
    split
    · rename_i hcond
      rw [hcond.1]
    · rfl

theorem close2_openC_mem (w : World) (hid cid' : Nat) (hmem : cid' ∈ w.openC)
    (hne : (w.getHandle hid).c ≠ some cid') : cid' ∈ (WsConn.Close w hid).2.openC := by
  unfold WsConn.Close
  dsimp only
  cases hc : (w.getHandle hid).c with
  | none => exact hmem
  | some cid2 =>
    dsimp only
    show cid' ∈ (w.closeTransport cid2).openC
    unfold World.closeTransport
    have hx : cid' ≠ cid2 := by
      intro he
      exact hne (hc.trans (by rw [he]))
    exact List.mem_filter.mpr ⟨hmem, by simp [hx]⟩

theorem getD_concat {α : Type} (l : List α) (a d : α) (n : Nat) :
    (l ++ [a]).getD n d = if n < l.length then l.getD n d else if n = l.length then a else d := by
  rcases Nat.lt_trichotomy n l.length with h | h | h
  · rw [List.getD_append _ _ _ _ h, if_pos h]
  · subst h
    rw [List.getD_append_right _ _ _ _ (le_refl _)]
    simp
  · rw [List.getD_append_right _ _ _ _ (le_of_lt h)]
    rw [if_neg (by omega), if_neg (by omega)]
    rw [List.getD_eq_default]
    simp only [List.length_singleton]
    omega


theorem connSafe_hid0_lt {hid0 cid : Nat} {w : World} (hs : ConnSafe hid0 cid w) :
    hid0 < w.handles.length := by
  by_contra hcontra
  have hz : w.getHandle hid0 = zeroConn := List.getD_eq_default _ _ (by omega)
  have h3 := hs.2.2.1
  rw [hz] at h3
  exact Option.noConfusion h3

theorem connSafe_pool_update {hid0 cid : Nat} {w : World} (p : PoolState)
    (hs : ConnSafe hid0 cid w) (hl : hid0 ∉ p.conns) :
    ConnSafe hid0 cid { w with pool := p } :=
  ⟨hs.1, hs.2.1, hs.2.2.1, hl, hs.2.2.2.2.1, hs.2.2.2.2.2⟩

theorem newConn_getHandle_lt (w : World) (hid2 : Nat) (hlt : hid2 < w.handles.length) :
    (Pool.newConnection w).2.getHandle hid2 = w.getHandle hid2 := by
  by_cases hd : w.config.Dialer w.dialCount
  · rw [newConnection_success w hd]
    show (w.handles ++ [_]).getD hid2 zeroConn = _
    rw [getD_concat, if_pos hlt]
    rfl
  · rw [newConnection_fail w (by simpa using hd)]
    rfl

theorem newConn_safe (hid0 cid : Nat) (w : World) (hs : ConnSafe hid0 cid w) :
    ConnSafe hid0 cid (Pool.newConnection w).2 := by
  have hlt : hid0 < w.handles.length := connSafe_hid0_lt hs
  obtain ⟨h1, h2, h3, h4, h5, h6⟩ := hs
  by_cases hd : w.config.Dialer w.dialCount
  · rw [newConnection_success w hd]
    refine ⟨List.mem_append_left _ h1, ?_, ?_, h4, ?_, ?_⟩
    · show cid < w.nextC + 1
      omega
    · show ((w.handles ++ [_]).getD hid0 zeroConn).c = some cid
      rw [getD_concat, if_pos hlt]
      exact h3
    · intro hid hne
      show ((w.handles ++ [_]).getD hid zeroConn).c ≠ some cid
      rw [getD_concat]
      split
      · exact h5 hid hne
      · split
        · intro hcontra
          have : w.nextC = cid := Option.some.inj hcontra
          omega
        · intro hcontra
          exact Option.noConfusion hcontra
    · intro hid
      show ((w.handles ++ [_]).getD hid zeroConn).p = none
      rw [getD_concat]
      split
      · exact h6 hid
      · split
        · rfl
        · rfl
  · rw [newConnection_fail w (by simpa using hd)]
    exact ⟨h1, h2, h3, h4, h5, h6⟩

theorem close_safe (hid0 cid hid : Nat) (w : World) (hne : hid ≠ hid0)
    (hs : ConnSafe hid0 cid w) : ConnSafe hid0 cid (WsConn.Close w hid).2 := by
  obtain ⟨h1, h2, h3, h4, h5, h6⟩ := hs
  refine ⟨?_, ?_, ?_, ?_, ?_, ?_⟩
  · exact close2_openC_mem w hid cid h1 (h5 hid hne)
  · rw [close2_nextC]
    exact h2
  · rw [close2_getHandle_ne w hid hid0 (Ne.symm hne)]
    exact h3
  · rw [close2_pool]
    exact h4
  · intro hid2 hne2
    rcases close2_getHandle_c_cases w hid hid2 with hcase | hcase
    · rw [hcase]
      exact h5 hid2 hne2
    · rw [hcase]
      exact fun hcontra => Option.noConfusion hcontra
  · intro hid2
    rw [close2_getHandle_p]
    exact h6 hid2


theorem refill_safe (hid0 cid : Nat) (n : Nat) :
    ∀ w : World, ConnSafe hid0 cid w → ConnSafe hid0 cid (Pool.refill n w) := by
  induction n with
  | zero => intro w hs; exact hs
  | succ n ih =>
    intro w hs
    unfold Pool.refill
    split
    · cases hres : (Pool.newConnection w).1 with
      | none =>
        simp only [hres]
        exact newConn_safe hid0 cid w hs
      | some hidN =>
        simp only [hres]
        apply ih
        have hsn := newConn_safe hid0 cid w hs
        apply connSafe_pool_update _ hsn
        intro hmem
        rcases List.mem_append.mp hmem with hmem1 | hmem2
        · rw [newConnection2_conns] at hmem1
          exact hs.2.2.2.1 hmem1
        · have hlen : hidN = w.handles.length := by
            by_cases hd : w.config.Dialer w.dialCount
            · rw [newConnection_success w hd] at hres
              exact (Option.some.inj hres).symm
            · rw [newConnection_fail w (by simpa using hd)] at hres
              exact Option.noConfusion hres
          have hlt := connSafe_hid0_lt hs
          have heq : hid0 = hidN := List.mem_singleton.mp hmem2
          omega
    · exact hs

theorem trim_safe (hid0 cid : Nat) (n : Nat) :
    ∀ w : World, ConnSafe hid0 cid w → ConnSafe hid0 cid (Pool.trim n w) := by
  induction n with
  | zero => intro w hs; exact hs
  | succ n ih =>
    intro w hs
    unfold Pool.trim
    split
    · cases hl : w.pool.conns.getLast? with
      | none => exact hs
      | some hid =>
        simp only [hl]
        apply ih
        have hmem : hid ∈ w.pool.conns := by
          have heq := List.dropLast_append_getLast? hid (by rw [hl]; rfl)
          rw [← heq]
          exact List.mem_append_right _ (List.mem_singleton_self hid)
        have hne : hid ≠ hid0 := fun he => hs.2.2.2.1 (he ▸ hmem)
        apply close_safe _ _ _ _ hne
        apply connSafe_pool_update _ hs
        intro hmem2
        exact hs.2.2.2.1 ((List.dropLast_sublist w.pool.conns).subset hmem2)
    · exact hs

theorem maintain_safe (hid0 cid : Nat) (w : World) (hs : ConnSafe hid0 cid w) :
    ConnSafe hid0 cid (Pool.maintainPoolSize w) :=
  trim_safe hid0 cid _ _ (refill_safe hid0 cid _ _ hs)

theorem closeAll_safe (hid0 cid : Nat) (l : List Nat) :
    ∀ w : World, (∀ hid ∈ l, hid ≠ hid0) → ConnSafe hid0 cid w →
      ConnSafe hid0 cid (w.closeAll l) := by
  induction l with
  | nil => intro w _ hs; exact hs
  | cons hid rest ih =>
    intro w hl hs
    show ConnSafe hid0 cid ((WsConn.Close w hid).2.closeAll rest)
    exact ih _ (fun h2 hm => hl h2 (List.mem_cons_of_mem _ hm))
      (close_safe hid0 cid hid w (hl hid (List.mem_cons_self _ _)) hs)

theorem acquire_safe (hid0 cid : Nat) (w : World) (hs : ConnSafe hid0 cid w) :
    ConnSafe hid0 cid (Pool.Acquire w).2 := by
  unfold Pool.Acquire
  cases hl : w.pool.conns.getLast? with
  | some hid =>
    simp only [hl]
    apply connSafe_pool_update _ hs
    intro hmem
    exact hs.2.2.2.1 ((List.dropLast_sublist w.pool.conns).subset hmem)
  | none =>
    simp only [hl]
    split
    · cases hres : (Pool.newConnection w).1 with
      | none =>
        simp only [hres]
        exact newConn_safe _ _ _ hs
      | some hid =>
        simp only [hres]
        apply connSafe_pool_update _ (newConn_safe _ _ _ hs)
        rw [newConnection2_conns]
        exact hs.2.2.2.1
    · exact hs

theorem wsRelease_id (w : World) (hid : Nat) (hp : (w.getHandle hid).p = none) :
    WsConn.Release w hid = w := by
  unfold WsConn.Release
  dsimp only
  rw [if_pos (by simp [hp])]

theorem poolClose_safe (hid0 cid : Nat) (w : World) (hs : ConnSafe hid0 cid w) :
    ConnSafe hid0 cid (Pool.Close w) := by
  unfold Pool.Close
  split
  · exact hs
  · apply connSafe_pool_update _
      (closeAll_safe hid0 cid w.pool.conns w (fun hid hm he => hs.2.2.2.1 (he ▸ hm)) hs)
    exact List.not_mem_nil hid0

theorem sweepLoop_safe (hid0 cid : Nat) (now : Int) (l : List Nat) :
    ∀ (w : World) (acc : List Nat), (∀ hid ∈ l, hid ≠ hid0) → ConnSafe hid0 cid w →
      ConnSafe hid0 cid (Pool.sweepLoop now w l acc).1 := by
  induction l with
  | nil => intro w acc _ hs; exact hs
  | cons hid rest ih =>
    intro w acc hl hs
    unfold Pool.sweepLoop
    split
    · exact ih _ _ (fun h2 hm => hl h2 (List.mem_cons_of_mem _ hm))
        (close_safe hid0 cid hid w (hl hid (List.mem_cons_self _ _)) hs)
    · exact ih _ _ (fun h2 hm => hl h2 (List.mem_cons_of_mem _ hm)) hs

theorem sweepTick_safe (hid0 cid : Nat) (w : World) (hs : ConnSafe hid0 cid w) :
    ConnSafe hid0 cid (Pool.sweepTick w) := by
  unfold Pool.sweepTick
  apply maintain_safe
  have hnotin : ∀ hid ∈ w.pool.conns, hid ≠ hid0 := fun hid hm he => hs.2.2.2.1 (he ▸ hm)
  apply connSafe_pool_update _ (sweepLoop_safe hid0 cid w.now w.pool.conns w [] hnotin hs)
  rw [sweepLoop2_filter]
  intro hmem
  rcases List.mem_append.mp hmem with h | h
  · exact List.not_mem_nil _ h
  · exact hs.2.2.2.1 (List.mem_of_mem_filter h)

theorem step_safe (hid0 cid : Nat) (w : World) (op : Op) (hop : op.callerFacing = true)
    (hs : ConnSafe hid0 cid w) : ConnSafe hid0 cid (step w op) := by
  cases op with
  | acquire => exact acquire_safe _ _ _ hs
  | release hid =>
    show ConnSafe hid0 cid (WsConn.Release w hid)
    rw [wsRelease_id w hid (hs.2.2.2.2.2 hid)]
    exact hs
  | poolRelease hid => simp [Op.callerFacing] at hop
  | sweep => exact sweepTick_safe _ _ _ hs
  | close => exact poolClose_safe _ _ _ hs
  | maintain => exact maintain_safe _ _ _ hs
  | advance k => exact ⟨hs.1, hs.2.1, hs.2.2.1, hs.2.2.2.1, hs.2.2.2.2.1, hs.2.2.2.2.2⟩

theorem run_safe (hid0 cid : Nat) (ops : List Op) :
    ∀ w : World, (∀ o ∈ ops, o.callerFacing = true) → ConnSafe hid0 cid w →
      ConnSafe hid0 cid (run w ops) := by
  induction ops with
  | nil => intro w _ hs; exact hs
  | cons op rest ih =>
    intro w hops hs
    exact ih _ (fun o hm => hops o (List.mem_cons_of_mem _ hm))
      (step_safe hid0 cid w op (hops op (List.mem_cons_self _ _)) hs)


theorem close2_cidsFresh (w : World) (hid : Nat) (h : CidsFresh w) :
    CidsFresh (WsConn.Close w hid).2 := by
  intro hid2 k hk
  rw [close2_nextC]
  rcases close2_getHandle_c_cases w hid hid2 with hc | hc
  · rw [hc] at hk
    exact h hid2 k hk
  · rw [hc] at hk
    exact Option.noConfusion hk

theorem closeAll_cidsFresh (l : List Nat) :
    ∀ w : World, CidsFresh w → CidsFresh (w.closeAll l) := by
  induction l with
  | nil => intro w h; exact h
  | cons hid rest ih =>
    intro w h
    exact ih _ (close2_cidsFresh w hid h)

theorem poolClose_cidsFresh (w : World) (h : CidsFresh w) : CidsFresh (Pool.Close w) := by
  unfold Pool.Close
  split
  · exact h
  · exact fun hid k hk => closeAll_cidsFresh w.pool.conns w h hid k hk

theorem closeAll_getHandle_p (l : List Nat) :
    ∀ (w : World) (hid2 : Nat),
      ((w.closeAll l).getHandle hid2).p = (w.getHandle hid2).p := by
  induction l with
  | nil => intro w hid2; rfl
  | cons hid rest ih =>
    intro w hid2
    show (((WsConn.Close w hid).2.closeAll rest).getHandle hid2).p = _
    rw [ih, close2_getHandle_p]

theorem poolClose_getHandle_p (w : World) (hp : ∀ hid, (w.getHandle hid).p = none) :
    ∀ hid, ((Pool.Close w).getHandle hid).p = none := by
  intro hid
  unfold Pool.Close
  split
  · exact hp hid
  · show (((w.closeAll w.pool.conns).getHandle hid)).p = none
    rw [closeAll_getHandle_p]
    exact hp hid

theorem poolClose_closedOnce (w : World) : (Pool.Close w).pool.closedOnce = true := by
  unfold Pool.Close
  split
  · rename_i h
    exact h
  · rfl

theorem poolClose_of_closed (v : World) (h : v.pool.closedOnce = true) : Pool.Close v = v := by
  unfold Pool.Close
  rw [if_pos h]

theorem poolClose_idem (w : World) : Pool.Close (Pool.Close w) = Pool.Close w :=
  poolClose_of_closed _ (poolClose_closedOnce w)

theorem poolClose_conns_of_open (w : World) (h : w.pool.closedOnce = false) :
    (Pool.Close w).pool.conns = [] := by
  unfold Pool.Close
  rw [if_neg (by simp [h])]

theorem acquire_dial_result (v : World) (hconns : v.pool.conns = [])
    (hlt : v.pool.activeConnections < v.config.MaxConn)
    (hd : v.config.Dialer v.dialCount = true)
    (hpv : ∀ hid, (v.getHandle hid).p = none)
    (hfresh : CidsFresh v) :
    (Pool.Acquire v).1 = some v.handles.length ∧
    (Pool.Acquire v).2.getHandle v.handles.length
      = { c := some v.nextC, p := none, createdAt := v.now, lastUsedAt := v.now } ∧
    ConnSafe v.handles.length v.nextC (Pool.Acquire v).2 := by
  unfold Pool.Acquire
  rw [hconns]
  simp only [List.getLast?_nil, if_pos hlt, newConnection_success v hd]
  refine ⟨trivial, ?_, ?_⟩
  · show (v.handles ++ [_]).getD v.handles.length zeroConn = _
    rw [getD_concat, if_neg (by omega), if_pos rfl]
  · refine ⟨?_, ?_, ?_, ?_, ?_, ?_⟩
    · show v.nextC ∈ v.openC ++ [v.nextC]
      exact List.mem_append_right _ (List.mem_singleton_self _)
    · show v.nextC < v.nextC + 1
      omega
    · show ((v.handles ++ [_]).getD v.handles.length zeroConn).c = some v.nextC
      rw [getD_concat, if_neg (by omega), if_pos rfl]
    · show v.handles.length ∉ v.pool.conns
      rw [hconns]
      exact List.not_mem_nil _
    · intro hid hne
      show ((v.handles ++ [_]).getD hid zeroConn).c ≠ some v.nextC
      rw [getD_concat]
      rcases Nat.lt_trichotomy hid v.handles.length with hlt2 | heq2 | hgt2
      · rw [if_pos hlt2]
        intro hcontra
        exact absurd (hfresh hid v.nextC hcontra) (lt_irrefl _)
      · exact absurd heq2 hne
      · rw [if_neg (by omega), if_neg (by omega)]
        exact fun hcontra => Option.noConfusion hcontra
    · intro hid
      show ((v.handles ++ [_]).getD hid zeroConn).p = none
      rw [getD_concat]
      rcases Nat.lt_trichotomy hid v.handles.length with hlt2 | heq2 | hgt2
      · rw [if_pos hlt2]
        exact hpv hid
      · rw [if_neg (by omega), if_pos heq2]
      · rw [if_neg (by omega), if_neg (by omega)]
        rfl

theorem cidsFresh_of_all (v : World)
    (h : v.handles.all
        (fun hc => match hc.c with | none => true | some k => decide (k < v.nextC)) = true) :
    CidsFresh v := by
  intro hid k hk
  by_cases hlt : hid < v.handles.length
  · have hmem : v.getHandle hid ∈ v.handles := by
      rw [World.getHandle, List.getD_eq_getElem _ _ hlt]
      exact List.getElem_mem hlt
    have := (List.all_eq_true.mp h) _ hmem
    rw [hk] at this
    exact of_decide_eq_true this
  · have hz : v.getHandle hid = zeroConn := List.getD_eq_default _ _ (by omega)
    rw [hz] at hk
    exact Option.noConfusion hk


/-- C10: the body of `Pool.Close` runs at most once; after `Close`, a
subsequent `Acquire` does not fail with any pool-closed error — when
the counter is below `MaxConn` and the dial succeeds it returns a
brand-new handle carrying no owning-pool reference — and no later
caller-facing pool operation ever closes the transport connection of
that handle. -/
theorem C10_acquire_after_close (w : World) (ops : List Op)
    (hops : ∀ o ∈ ops, o.callerFacing = true)
    (hclosed : w.pool.closedOnce = false)
    (hp : ∀ hid, (w.getHandle hid).p = none)
    (hfresh : CidsFresh w)
    (hact : (Pool.Close w).pool.activeConnections < (Pool.Close w).config.MaxConn)
    (hdial : (Pool.Close w).config.Dialer (Pool.Close w).dialCount = true) :
    Pool.Close (Pool.Close w) = Pool.Close w ∧
    (Pool.Acquire (Pool.Close w)).1 = some (Pool.Close w).handles.length ∧
    ((Pool.Acquire (Pool.Close w)).2.getHandle (Pool.Close w).handles.length).c
        = some (Pool.Close w).nextC ∧
    ((Pool.Acquire (Pool.Close w)).2.getHandle (Pool.Close w).handles.length).p = none ∧
    (Pool.Close w).nextC ∈ (run (Pool.Acquire (Pool.Close w)).2 ops).openC := by
  have hconns := poolClose_conns_of_open w hclosed
  have hpc := poolClose_getHandle_p w hp
  have hfc := poolClose_cidsFresh w hfresh
  obtain ⟨ha1, ha2, ha3⟩ := acquire_dial_result (Pool.Close w) hconns hact hdial hpc hfc
  refine ⟨poolClose_idem w, ha1, by rw [ha2], by rw [ha2], ?_⟩
  exact (run_safe (Pool.Close w).handles.length (Pool.Close w).nextC ops _ hops ha3).1

theorem C10_acquire_after_close_witness :
    Pool.Close (Pool.Close wC1) = Pool.Close wC1 ∧
    (Pool.Acquire (Pool.Close wC1)).1 = some (Pool.Close wC1).handles.length ∧
    ((Pool.Acquire (Pool.Close wC1)).2.getHandle (Pool.Close wC1).handles.length).c
        = some (Pool.Close wC1).nextC ∧
    ((Pool.Acquire (Pool.Close wC1)).2.getHandle (Pool.Close wC1).handles.length).p = none ∧
    (Pool.Close wC1).nextC ∈
      (run (Pool.Acquire (Pool.Close wC1)).2 [Op.sweep, Op.acquire, Op.close]).openC :=
  C10_acquire_after_close wC1 [Op.sweep, Op.acquire, Op.close] (by decide) (by decide)
    (fun hid => by cases hid <;> rfl) (cidsFresh_of_all wC1 (by decide))
    (by decide) (by decide)

end Wspool
